import Mathlib

/-!
Verification development for the GitHub-issue justification validator
(`jvs-plugin-github`).  The definitions below are a shallow embedding of
the plugin package: the issue-URL parser (`parseIssueInfoFromURL` and the
regular expression `issueURLPatternRegExp`), the token exchanger
(`getAccessToken`), the issue classifier (`validateIssue`), the
orchestrators `MatchIssue` (Validator) and `Validate` (GitHubPlugin),
together with models of the pieces of the Go standard library they use
(`regexp.MatchString` on this one fixed pattern, `net/url.Parse` path
extraction, `strings.Split`, `strconv.Atoi`, `strconv.Itoa`).
Network collaborators (the GitHub App token endpoint and the issue REST
endpoint) are passed in as explicit functions, mirroring how the Go code
receives them as injected clients.
-/

/-! ## Character classes (Go regexp classes and net/url character sets) -/

/-- Character class `[a-zA-Z0-9-]` of the issue-URL regular expression,
by Unicode code point exactly as Go's regexp engine checks it. -/
def alnumHyphen (c : Char) : Bool :=
  decide ((65 ≤ c.toNat ∧ c.toNat ≤ 90) ∨ (97 ≤ c.toNat ∧ c.toNat ≤ 122) ∨
    (48 ≤ c.toNat ∧ c.toNat ≤ 57) ∨ c.toNat = 45)

/-- Character class `[0-9]` of the regular expression; also the digit test
used by `strconv.Atoi`. -/
def digitChar (c : Char) : Bool :=
  decide (48 ≤ c.toNat ∧ c.toNat ≤ 57)

/-- Control characters rejected outright by `net/url.Parse`
(`stringContainsCTLByte`). -/
def isCTLChar (c : Char) : Bool :=
  decide (c.toNat < 32 ∨ c.toNat = 127)

/-- Characters `net/url` accepts unescaped inside a host name
(alphanumerics, `-._~`, the RFC 3986 sub-delims, and `[]<>"`, plus any
non-ASCII code point); `:` is excluded here because it is handled by the
port rule of `parseHost`. -/
def goHostChar (c : Char) : Bool :=
  alnumHyphen c ||
  decide (c.toNat = 95 ∨ c.toNat = 46 ∨ c.toNat = 126 ∨
    c.toNat = 33 ∨ c.toNat = 36 ∨ c.toNat = 38 ∨ c.toNat = 39 ∨
    c.toNat = 40 ∨ c.toNat = 41 ∨ c.toNat = 42 ∨ c.toNat = 43 ∨
    c.toNat = 44 ∨ c.toNat = 59 ∨ c.toNat = 61 ∨
    c.toNat = 91 ∨ c.toNat = 93 ∨ c.toNat = 60 ∨ c.toNat = 62 ∨
    c.toNat = 34 ∨ 128 ≤ c.toNat)

/-- Characters `net/url` accepts unescaped in the userinfo part of an
authority. -/
def goUserinfoChar (c : Char) : Bool :=
  goHostChar c || decide (c.toNat = 58)

/-! ## strings.Split on "/" -/

/-- Model of Go `strings.Split(s, "/")`: splits into the (never empty)
list of segments between slashes. -/
def splitSlash : List Char → List (List Char)
  | [] => [[]]
  | c :: rest =>
    let r := splitSlash rest
    if c = '/' then [] :: r
    else (c :: r.headD []) :: r.tail

theorem splitSlash_ne_nil (cs : List Char) : splitSlash cs ≠ [] := by
  cases cs with
  | nil => simp [splitSlash]
  | cons c rest =>
    simp only [splitSlash]
    split <;> simp

theorem splitSlash_cons_slash (rest : List Char) :
    splitSlash ('/' :: rest) = [] :: splitSlash rest := by
  simp [splitSlash]

theorem splitSlash_cons_ne (c : Char) (rest : List Char) (hc : c ≠ '/') :
    splitSlash (c :: rest) =
      (c :: (splitSlash rest).headD []) :: (splitSlash rest).tail := by
  simp [splitSlash, hc]

/-- Splitting a slash-free segment followed by a slash peels off that
segment. -/
theorem splitSlash_append (a rest : List Char) (ha : ∀ c ∈ a, c ≠ '/') :
    splitSlash (a ++ '/' :: rest) = a :: splitSlash rest := by
  induction a with
  | nil => simp [splitSlash_cons_slash]
  | cons x xs ih =>
    have hx : x ≠ '/' := ha x (by simp)
    have ihx := ih (fun c hc => ha c (by simp [hc]))
    rw [List.cons_append, splitSlash_cons_ne x _ hx, ihx]
    simp

/-- Splitting a slash-free list yields a single segment. -/
theorem splitSlash_no_slash (a : List Char) (ha : ∀ c ∈ a, c ≠ '/') :
    splitSlash a = [a] := by
  induction a with
  | nil => simp [splitSlash]
  | cons x xs ih =>
    have hx : x ≠ '/' := ha x (by simp)
    have ihx := ih (fun c hc => ha c (by simp [hc]))
    rw [splitSlash_cons_ne x _ hx, ihx]
    simp

/-- Joining segments back with slashes (inverse direction used to invert
the parser). -/
def joinSlash : List (List Char) → List Char
  | [] => []
  | [a] => a
  | a :: rest => a ++ '/' :: joinSlash rest

theorem joinSlash_splitSlash (cs : List Char) :
    joinSlash (splitSlash cs) = cs := by
  induction cs with
  | nil => simp [splitSlash, joinSlash]
  | cons c rest ih =>
    by_cases hc : c = '/'
    · subst hc
      rw [splitSlash_cons_slash]
      have hne := splitSlash_ne_nil rest
      cases h : splitSlash rest with
      | nil => exact absurd h hne
      | cons g gs =>
        rw [h] at ih
        simp [joinSlash, ← ih]
    · rw [splitSlash_cons_ne c rest hc]
      have hne := splitSlash_ne_nil rest
      cases h : splitSlash rest with
      | nil => exact absurd h hne
      | cons g gs =>
        rw [h] at ih
        cases gs with
        | nil => simpa [joinSlash] using congrArg (c :: ·) ih
        | cons g2 gs2 => simpa [joinSlash] using congrArg (c :: ·) ih

/-- Every segment produced by `splitSlash` is slash-free. -/
theorem splitSlash_mem_no_slash (cs : List Char) :
    ∀ p ∈ splitSlash cs, ∀ c ∈ p, c ≠ '/' := by
  induction cs with
  | nil =>
    intro p hp
    simp [splitSlash] at hp
    subst hp; intro c hc; cases hc
  | cons x rest ih =>
    intro p hp
    by_cases hx : x = '/'
    · subst hx
      rw [splitSlash_cons_slash] at hp
      rcases List.mem_cons.mp hp with hp | hp
      · subst hp; intro c hc; cases hc
      · exact ih p hp
    · rw [splitSlash_cons_ne x rest hx] at hp
      have hne := splitSlash_ne_nil rest
      cases h : splitSlash rest with
      | nil => exact absurd h hne
      | cons g gs =>
        rw [h] at hp
        simp only [List.headD_cons, List.tail_cons, List.mem_cons] at hp
        rcases hp with hp | hp
        · subst hp
          intro c hc
          rcases List.mem_cons.mp hc with hc | hc
          · subst hc; exact hx
          · exact ih (x :: g).tail (by rw [h]; simp) c (by simpa using hc)
        · exact ih p (by rw [h]; simp [hp])

/-! ## Literal fragments of the issue-URL pattern -/

/-- Characters of the literal regex prefix `https://github` (14 characters,
before the unescaped dot of `github.com`). -/
def litHttpsGithub : List Char := "https://github".data

/-- Characters of the literal regex fragment `com/` that follows the
unescaped dot. -/
def litComSlash : List Char := "com/".data

/-- Characters of the literal path segment `issues`. -/
def litIssues : List Char := "issues".data

/-- Characters of `/issues/`. -/
def litSlashIssuesSlash : List Char := "/issues/".data

/-- Characters of the scheme prefix `https://`. -/
def litHttps : List Char := "https://".data

/-- Characters of `github`. -/
def litGithub : List Char := "github".data

/-- Characters of `com`. -/
def litCom : List Char := "com".data

/-! ## The regular expression `issueURLPatternRegExp` -/

/-- Matching of the tail of the pattern,
`([a-zA-Z0-9-]*)\/[a-zA-Z0-9-]*\/issues\/[0-9]+$`: since neither character
class contains `/`, a string matches exactly when it splits on `/` into
`[owner, repo, "issues", digits]` with the segment classes as shown. -/
def restMatch (cs : List Char) : Bool :=
  match splitSlash cs with
  | [a, b, i, d] =>
    a.all alnumHyphen && b.all alnumHyphen && decide (i = litIssues) &&
      !d.isEmpty && d.all digitChar
  | _ => false

/-- Model of Go `regexp.MatchString(issueURLPatternRegExp, s)`.  The
pattern is anchored on both sides; its prefix is the 14 literal characters
`https://github`, then the unescaped `.` (any character but newline), then
the literal `com/`, then the segment tail checked by `restMatch`. -/
def issueURLMatch (cs : List Char) : Bool :=
  match cs.drop 14 with
  | [] => false
  | c :: rest =>
    decide (cs.take 14 = litHttpsGithub) && !(decide (c = '\n')) &&
      decide (rest.take 4 = litComSlash) && restMatch (rest.drop 4)

/-! ## net/url.Parse (path extraction), modelled for the URL shapes that
can reach it behind the regex check -/

/-- Authority delimiters: true when the character is none of `/`, `?`,
`#` (authority extends while this holds). -/
def notSQH (c : Char) : Bool :=
  !(decide (c = '/') || decide (c = '?') || decide (c = '#'))

/-- Path delimiters: true when the character is neither `?` nor `#`. -/
def notQH (c : Char) : Bool :=
  !(decide (c = '?') || decide (c = '#'))

/-- Model of `net/url` host validation (`parseHost`): if the host contains
a colon, everything after the last colon must be decimal digits (the
optional port) and the rest must be valid host characters; otherwise every
character must be a valid host character. -/
def hostValid (h : List Char) : Bool :=
  if decide (':' ∈ h) then
    let revPort := h.reverse.takeWhile (fun c => !(decide (c = ':')))
    revPort.all digitChar &&
      (h.take (h.length - revPort.length - 1)).all
        (fun c => goHostChar c || decide (c.toNat = 58))
  else h.all goHostChar

/-- Model of `net/url` authority validation: an optional userinfo part
before the last `@`, then a host validated by `hostValid`. -/
def authorityValid (a : List Char) : Bool :=
  if decide ('@' ∈ a) then
    let revHost := a.reverse.takeWhile (fun c => !(decide (c = '@')))
    (a.take (a.length - revHost.length - 1)).all goUserinfoChar &&
      hostValid revHost.reverse
  else hostValid a

/-- Model of `net/url.Parse` restricted to what `parseIssueInfoFromURL`
consumes: the `Path` field of the parsed URL (or an error).  A URL with a
control character is rejected; an `https://` URL has its authority read up
to the first `/`, `?` or `#` and validated, and its path runs from there
up to the first `?` or `#`.  This reproduces `net/url.Parse` on every
string accepted by `issueURLMatch` (those strings contain at most one
character outside `[a-zA-Z0-9-]`, `[0-9]` and `/`). -/
def goURLPath (cs : List Char) : Except Unit (List Char) :=
  if cs.any isCTLChar then .error ()
  else if cs.take 8 = litHttps then
    let rest := cs.drop 8
    let auth := rest.takeWhile notSQH
    if authorityValid auth then
      .ok ((rest.drop auth.length).takeWhile notQH)
    else .error ()
  else .error ()

/-! ## strconv.Atoi and strconv.Itoa -/

/-- Decimal value of a digit string (most significant digit first). -/
def digitsVal (ds : List Char) : Nat :=
  ds.foldl (fun acc c => acc * 10 + (c.toNat - 48)) 0

/-- Model of Go `strconv.Atoi` on a 64-bit platform: optional sign, one or
more decimal digits, and a range check against `int64`; everything else is
an error (`ErrSyntax`/`ErrRange`). -/
def goAtoi (s : List Char) : Except Unit Int :=
  match s with
  | [] => .error ()
  | c :: rest =>
    let ds := if decide (c = '-') || decide (c = '+') then rest else s
    if ds.isEmpty then .error ()
    else if ds.all digitChar then
      if decide (c = '-') then
        if digitsVal ds ≤ 2 ^ 63 then .ok (-(digitsVal ds : Int)) else .error ()
      else
        if digitsVal ds ≤ 2 ^ 63 - 1 then .ok (digitsVal ds : Int) else .error ()
    else .error ()

/-- Model of Go `strconv.Itoa`. -/
def goItoa (n : Int) : String :=
  if n < 0 then "-" ++ Nat.repr (-n).toNat else Nat.repr n.toNat

/-! ## The issue-URL parser -/

/-- The attributes parsed from the issue URL (`pluginGitHubIssue`). -/
structure PluginGitHubIssue where
  Owner : String
  RepoName : String
  IssueNumber : Int
deriving DecidableEq

/-- Result of `parseIssueInfoFromURL`: a parsed issue, a Go error with the
given message, or a Go runtime panic (out-of-range slice index). -/
inductive ParseResult where
  | ok (info : PluginGitHubIssue)
  | err (msg : String)
  | crash
deriving DecidableEq

/-- A single-quote character, kept out of string literals. -/
def apos : String := ⟨[Char.ofNat 39]⟩

/-- The pattern string `issueURLPatternRegExp` from the source. -/
def issueURLPatternRegExp : String :=
  "^https:\\/\\/github.com\\/([a-zA-Z0-9-]*)\\/[a-zA-Z0-9-]*\\/issues\\/[0-9]+$"

/-- Message produced when the URL fails the regex check. -/
def patternErrMsg : String :=
  "invalid issue url, issueURL doesn" ++ apos ++ "t match pattern: " ++
    issueURLPatternRegExp

/-- Message produced when `net/url.Parse` fails (the wrapped `net/url`
error detail is abstracted away; no claim depends on it). -/
def urlParseFailMsg : String := "failed to parse provided issue url"

/-- Model of `parseIssueInfoFromURL`: regex gate, `url.Parse`, split of
the path on `/`, `strconv.Atoi` of segment 4, and the struct built from
segments 1 and 2.  Indexing `arr[4]` with fewer than five segments is the
Go runtime panic `crash`. -/
def parseIssueInfoFromURL (issueURL : String) : ParseResult :=
  let cs := issueURL.data
  if issueURLMatch cs then
    match goURLPath cs with
    | .error _ => .err urlParseFailMsg
    | .ok path =>
      match splitSlash path with
      | _ :: s1 :: s2 :: _ :: s4 :: _ =>
        match goAtoi s4 with
        | .error _ =>
          .err ("failed to convert issueNumber " ++
            (⟨s4⟩ : String) ++ " to int")
        | .ok n => .ok ⟨⟨s1⟩, ⟨s2⟩, n⟩
      | _ => .crash
  else .err patternErrMsg

/-! ## Go error values, the GitHub client, and the Validator -/

/-- A Go error value as the plugin observes it: its rendered message and
whether `errors.Is(err, errInvalidJustification)` holds.  The sentinel
`errInvalidJustification` itself is declared in a repository file that is
not under `src/`; only its identity is used by the code, via `%w`
wrapping and `errors.Is`. -/
structure GoError where
  isInvalidJust : Bool
  msg : String
deriving DecidableEq

/-- Modelled from the spec: the message text of the sentinel error
`errInvalidJustification`, whose defining file is missing from `src/`
(only tests and callers reference it).  Its exact text is never relied
upon by any theorem below beyond being a prefix of wrapped messages. -/
def errIJText : String := "invalid justification"

/-- The state of a `github.Client` that the plugin can alter:
`WithAuthToken` returns a copy of the client carrying the bearer token. -/
structure GoClient where
  authToken : Option String
deriving DecidableEq

/-- Model of `github.Client.WithAuthToken`. -/
def withAuthToken (_c : GoClient) (t : String) : GoClient :=
  { authToken := some t }

/-- The `Validator` struct of the plugin: a GitHub REST client and a
GitHub App handle (the latter opaque here, type parameter `α`). -/
structure Validator (α : Type) where
  client : GoClient
  githubApp : α
deriving DecidableEq

/-- The `githubapp.TokenRequest` passed to the GitHub App client. -/
structure TokenRequest where
  Repositories : List String
  Permissions : List (String × String)
deriving DecidableEq

/-- The token request `getAccessToken` builds for a repository: exactly
that repository and the single permission `issues: read`. -/
def tokenRequestFor (repoName : String) : TokenRequest :=
  ⟨[repoName], [("issues", "read")]⟩

/-- The two external operations behind `getAccessToken`:
`githubApp.AccessToken` (JWT signing plus installation-token HTTP
exchange, returning the raw response body) and `json.Unmarshal` into
`ExchangeResponse` (returning its `token` field).  Both are injected, as
in the Go code, and either can fail with a Go error message. -/
structure TokenEnv where
  accessToken : TokenRequest → Except String String
  unmarshalToken : String → Except String String

/-- Model of `Validator.getAccessToken`: builds the narrow token request,
calls the GitHub App client, unmarshals the response.  Neither failure
wraps `errInvalidJustification`. -/
def getAccessToken (env : TokenEnv) (repoName : String) :
    Except GoError String :=
  match env.accessToken (tokenRequestFor repoName) with
  | .error e => .error ⟨false, "failed to get access token: " ++ e⟩
  | .ok resp =>
    match env.unmarshalToken resp with
    | .error e => .error ⟨false, "error unmarshal resp: " ++ e⟩
    | .ok tok => .ok tok

/-! ## The issue fetch and its classification (`validateIssue`) -/

/-- Outcome of `client.Issues.Get`: either a decoded issue (its `state`
field; `GetState()` yields `""` when absent) or an error together with
the HTTP response; the response is `none` when the request never
completed (transport error), in which case the Go code dereferences a nil
`*github.Response`. -/
inductive FetchResult where
  | ok (state : String)
  | err (status : Option Nat) (msg : String)
deriving DecidableEq

/-- A Go computation that either returns or panics. -/
inductive GoResult (α : Type) where
  | ok (a : α)
  | crash
deriving DecidableEq

/-- Model of `Validator.validateIssue` (the outcome classifier): a 404
response is the invalid-justification "issue not found"; any other error
with a response is the plain fault "failed to get issue info"; an issue
whose state is not "open" is the invalid-justification state message; an
open issue validates (no error).  An error with no HTTP response panics
on `resp.StatusCode`. -/
def validateIssue (fetch : FetchResult) : GoResult (Option GoError) :=
  match fetch with
  | .err none _ => .crash
  | .err (some st) m =>
    if st = 404 then
      .ok (some ⟨true, errIJText ++ ": issue not found: " ++ m⟩)
    else
      .ok (some ⟨false, "failed to get issue info: " ++ m⟩)
  | .ok state =>
    if state ≠ "open" then
      .ok (some ⟨true, errIJText ++ ": issue is in state: " ++ state ++
        ", please make sure to use an open issue"⟩)
    else
      .ok none

/-- Model of `Validator.MatchIssue`: parse the URL (wrapping a parse
failure with `errInvalidJustification`), obtain the access token (a
failure is wrapped again with "failed to get access token: "), overwrite
`v.client` with the token-authenticated copy, fetch and classify the
issue with the new client, and return the parsed info alongside the
classification error.  `fetchIssue` stands for `client.Issues.Get` on
the given owner, repository and issue number. -/
def MatchIssue {α : Type} (v : Validator α) (env : TokenEnv)
    (fetchIssue : GoClient → String → String → Int → FetchResult)
    (issueURL : String) :
    GoResult (Validator α × Option PluginGitHubIssue × Option GoError) :=
  match parseIssueInfoFromURL issueURL with
  | .crash => .crash
  | .err m =>
    .ok (v, none, some ⟨true, errIJText ++ ": failed to parse issueURL: " ++ m⟩)
  | .ok info =>
    match getAccessToken env info.RepoName with
    | .error e =>
      .ok (v, none, some ⟨e.isInvalidJust, "failed to get access token: " ++ e.msg⟩)
    | .ok t =>
      match validateIssue (fetchIssue (withAuthToken v.client t) info.Owner
          info.RepoName info.IssueNumber) with
      | .crash => .crash
      | .ok e => .ok ({ v with client := withAuthToken v.client t }, some info, e)

/-! ## The plugin surface (`GitHubPlugin.Validate`) -/

/-- The fixed justification category this plugin validates. -/
def githubCategory : String := "github"

/-- Annotation key constants from `plugin.go`. -/
def respAnnotationKeyIssueURL : String := "github_issue_url"

/-- Annotation key for the issue owner. -/
def respAnnotationKeyIssueOwner : String := "github_issue_owner"

/-- Annotation key for the issue repository. -/
def respAnnotationKeyIssueRepo : String := "github_issue_repo"

/-- Annotation key for the issue number. -/
def respAnnotationKeyIssueNumber : String := "github_issue_number"

/-- The `jvspb.ValidateJustificationResponse` fields the plugin sets. -/
structure ValidateJustificationResponse where
  Valid : Bool
  Annotation : List (String × String)
  Error : List String
deriving DecidableEq

/-- What `GitHubPlugin.Validate` hands back to the host: either a
response (with `err == nil`), or a gRPC `codes.Internal` fault (with
`resp == nil`). -/
inductive ValidateOutcome where
  | resp (r : ValidateJustificationResponse)
  | fault (msg : String)
deriving DecidableEq

/-- Model of Go `%q` on the strings reaching it here (none of which needs
escaping). -/
def goQuote (s : String) : String := "\"" ++ s ++ "\""

/-- The message of `generateInvalidErrResq` for a category mismatch. -/
def categoryErrMsg (got : String) : String :=
  "failed to perform validation, expected category " ++ goQuote got ++
    " to be " ++ goQuote githubCategory

/-- Model of `GitHubPlugin.Validate`: reject a non-"github" category with
an invalid response before any network interaction; otherwise run
`MatchIssue`; an `errInvalidJustification`-wrapped error becomes a
`valid=false` response carrying the message, any other error becomes a
gRPC Internal fault, and success builds the annotated `valid=true`
response.  The updated validator state is returned alongside. -/
def Validate {α : Type} (v : Validator α) (env : TokenEnv)
    (fetchIssue : GoClient → String → String → Int → FetchResult)
    (category value : String) :
    GoResult (Validator α × ValidateOutcome) :=
  if category ≠ githubCategory then
    .ok (v, .resp ⟨false, [], [categoryErrMsg category]⟩)
  else
    match MatchIssue v env fetchIssue value with
    | .crash => .crash
    | .ok (v2, _, some e) =>
      if e.isInvalidJust then .ok (v2, .resp ⟨false, [], [e.msg]⟩)
      else .ok (v2, .fault e.msg)
    | .ok (v2, some info, none) =>
      .ok (v2, .resp ⟨true,
        [(respAnnotationKeyIssueURL, value),
         (respAnnotationKeyIssueOwner, info.Owner),
         (respAnnotationKeyIssueRepo, info.RepoName),
         (respAnnotationKeyIssueNumber, goItoa info.IssueNumber)], []⟩)
    | .ok (_, none, none) => .crash

/-! ## Substring containment (for "message contains" properties) -/

/-- The message `s` contains `sub` as a contiguous substring. -/
def strContains (s sub : String) : Prop :=
  ∃ pre post, s.data = pre ++ sub.data ++ post

/-- Containment witness: exhibiting the surrounding pieces. -/
theorem strContains_parts (x y s sub : String)
    (h : s.data = x.data ++ sub.data ++ y.data) : strContains s sub :=
  ⟨x.data, y.data, h⟩

/-- takeWhile distributes over an append whose left part satisfies the
predicate throughout. -/
theorem takeWhile_all_append (p : Char → Bool) (xs ys : List Char)
    (h : ∀ x ∈ xs, p x = true) :
    (xs ++ ys).takeWhile p = xs ++ ys.takeWhile p := by
  induction xs with
  | nil => simp
  | cons a as ih =>
    simp only [List.cons_append, List.takeWhile_cons, h a (by simp)]
    rw [ih (fun x hx => h x (by simp [hx]))]
    simp

/-! ## Concrete collaborators used by witnesses and counterexamples -/

/-- A fresh validator with an unauthenticated client. -/
def v0 : Validator Unit := ⟨⟨none⟩, ()⟩

/-- A token environment whose exchange and unmarshal succeed. -/
def envTokenOk : TokenEnv := ⟨fun _ => .ok "raw", fun _ => .ok "tok"⟩

/-- A token environment whose exchange fails. -/
def envTokenErr : TokenEnv := ⟨fun _ => .error "boom", fun _ => .ok "tok"⟩

/-- An issue fetch that finds an open issue. -/
def fetchOpen : GoClient → String → String → Int → FetchResult :=
  fun _ _ _ _ => .ok "open"

/-- An issue fetch that finds a closed issue. -/
def fetchClosed : GoClient → String → String → Int → FetchResult :=
  fun _ _ _ _ => .ok "closed"

/-- An issue fetch answered with HTTP 404. -/
def fetchNotFound : GoClient → String → String → Int → FetchResult :=
  fun _ _ _ _ => .err (some 404) "404 Not Found"

/-! ## Claims about the classifier and orchestrators -/

/-- C1: for every completed issue fetch, the outcome is classified
exactly as: a 404 result yields an invalid-justification error containing
"issue not found"; any other completed fetch failure yields a plain
(internal) error containing "failed to get issue info"; a fetched issue
whose state is not "open" yields an invalid-justification error
containing "issue is in state: <state>, please make sure to use an open
issue"; and a fetched open issue validates, `MatchIssue` returning the
parsed issue reference with no error. -/
theorem C1_fetch_outcome_classification :
    (∀ m : String,
      validateIssue (.err (some 404) m)
        = .ok (some ⟨true, errIJText ++ ": issue not found: " ++ m⟩) ∧
      strContains (errIJText ++ ": issue not found: " ++ m) "issue not found") ∧
    (∀ (st : Nat) (m : String), st ≠ 404 →
      validateIssue (.err (some st) m)
        = .ok (some ⟨false, "failed to get issue info: " ++ m⟩) ∧
      strContains ("failed to get issue info: " ++ m)
        "failed to get issue info") ∧
    (∀ s : String, s ≠ "open" →
      validateIssue (.ok s)
        = .ok (some ⟨true, errIJText ++ ": issue is in state: " ++ s ++
            ", please make sure to use an open issue"⟩) ∧
      strContains (errIJText ++ ": issue is in state: " ++ s ++
          ", please make sure to use an open issue")
        ("issue is in state: " ++ s ++
          ", please make sure to use an open issue")) ∧
    (∀ (α : Type) (v : Validator α) (env : TokenEnv)
        (f : GoClient → String → String → Int → FetchResult)
        (url : String) (info : PluginGitHubIssue) (t : String),
      parseIssueInfoFromURL url = .ok info →
      getAccessToken env info.RepoName = .ok t →
      f (withAuthToken v.client t) info.Owner info.RepoName info.IssueNumber
          = .ok "open" →
      MatchIssue v env f url
        = .ok ({ v with client := withAuthToken v.client t }, some info, none)) := by
  refine ⟨fun m => ⟨by simp [validateIssue], ?_⟩,
    fun st m hst => ⟨by simp [validateIssue, hst], ?_⟩,
    fun s hs => ⟨by simp [validateIssue, hs], ?_⟩,
    fun α v env f url info t hp ht hf => ?_⟩
  · exact strContains_parts (errIJText ++ ": ") (": " ++ m) _ _
      (by simp only [String.data_append, List.append_assoc]; rfl)
  · exact strContains_parts "" (": " ++ m) _ _
      (by simp only [String.data_append, List.append_assoc]; rfl)
  · exact strContains_parts (errIJText ++ ": ") "" _ _
      (by simp only [String.data_append, List.append_assoc]; rfl)
  · simp [MatchIssue, hp, ht, hf, validateIssue]

/-- C2: when the token exchange fails, `Validate` never produces a
`valid=false` response; it returns the distinct gRPC-internal fault. -/
theorem C2_token_failure_is_internal_fault {α : Type} (v : Validator α)
    (env : TokenEnv) (f : GoClient → String → String → Int → FetchResult)
    (value m : String) (info : PluginGitHubIssue)
    (hp : parseIssueInfoFromURL value = .ok info)
    (ht : env.accessToken (tokenRequestFor info.RepoName) = .error m) :
    Validate v env f githubCategory value
      = .ok (v, .fault ("failed to get access token: " ++
          ("failed to get access token: " ++ m))) ∧
    ∀ (w : Validator α) (r : ValidateJustificationResponse),
      Validate v env f githubCategory value ≠ .ok (w, .resp r) := by
  have hstep : Validate v env f githubCategory value
      = .ok (v, .fault ("failed to get access token: " ++
          ("failed to get access token: " ++ m))) := by
    simp [Validate, MatchIssue, getAccessToken, hp, ht]
  exact ⟨hstep, fun w r h => by rw [hstep] at h; simp at h⟩

/-- Witness for C2 at a concrete URL and failing token endpoint. -/
theorem C2_witness :
    parseIssueInfoFromURL "https://github.com/o/r/issues/1"
        = .ok ⟨"o", "r", 1⟩ ∧
    envTokenErr.accessToken (tokenRequestFor ("o" : String)) = .error "boom" ∧
    Validate v0 envTokenErr fetchOpen githubCategory
        "https://github.com/o/r/issues/1"
      = .ok (v0, .fault ("failed to get access token: " ++
          ("failed to get access token: " ++ "boom"))) := by
  refine ⟨by decide, rfl, ?_⟩
  exact (C2_token_failure_is_internal_fault v0 envTokenErr fetchOpen
    "https://github.com/o/r/issues/1" "boom" ⟨"o", "r", 1⟩
    (by decide) rfl).1

/-- C3: the only token request a validation issues is the one for exactly
the repository of the parsed reference with exactly the permission map
`issues: read`: the request record is that pair, and `MatchIssue` cannot
distinguish token environments that agree on that single request. -/
theorem C3_token_request_minimal_scope {α : Type} (v : Validator α)
    (env₁ env₂ : TokenEnv)
    (f : GoClient → String → String → Int → FetchResult)
    (url : String) (info : PluginGitHubIssue)
    (hp : parseIssueInfoFromURL url = .ok info)
    (hacc : env₁.accessToken (tokenRequestFor info.RepoName)
      = env₂.accessToken (tokenRequestFor info.RepoName))
    (hun : ∀ s, env₁.unmarshalToken s = env₂.unmarshalToken s) :
    tokenRequestFor info.RepoName
        = ⟨[info.RepoName], [("issues", "read")]⟩ ∧
    MatchIssue v env₁ f url = MatchIssue v env₂ f url := by
  refine ⟨rfl, ?_⟩
  simp only [MatchIssue, hp]
  unfold getAccessToken
  simp only [hacc, hun]

/-- Witness for C3 with two stub environments agreeing on the request. -/
theorem C3_witness :
    parseIssueInfoFromURL "https://github.com/o/r/issues/1"
        = .ok ⟨"o", "r", 1⟩ ∧
    tokenRequestFor ("r" : String) = ⟨["r"], [("issues", "read")]⟩ ∧
    MatchIssue v0 envTokenOk fetchOpen "https://github.com/o/r/issues/1"
      = MatchIssue v0 envTokenOk fetchOpen "https://github.com/o/r/issues/1" := by
  have h := C3_token_request_minimal_scope v0 envTokenOk envTokenOk fetchOpen
    "https://github.com/o/r/issues/1" ⟨"o", "r", 1⟩ (by decide) rfl
    (fun _ => rfl)
  exact ⟨by decide, h.1, h.2⟩

/-- C4 counterexample: at a concrete open issue, the `valid=true` response
annotates with keys `github_issue_url`, `github_issue_owner`,
`github_issue_repo`, `github_issue_number` — the keys `issue_url`,
`issue_owner`, `issue_repo`, `issue_number` named by the claim are not in
the annotation map. -/
theorem C4_counterexample :
    Validate v0 envTokenOk fetchOpen githubCategory
        "https://github.com/o/r/issues/1"
      = .ok (⟨⟨some "tok"⟩, ()⟩, .resp ⟨true,
          [("github_issue_url", "https://github.com/o/r/issues/1"),
           ("github_issue_owner", "o"), ("github_issue_repo", "r"),
           ("github_issue_number", "1")], []⟩) ∧
    ([("github_issue_url", "https://github.com/o/r/issues/1"),
      ("github_issue_owner", "o"), ("github_issue_repo", "r"),
      ("github_issue_number", "1")] : List (String × String)).lookup
        "issue_url" = none ∧
    ([("github_issue_url", "https://github.com/o/r/issues/1"),
      ("github_issue_owner", "o"), ("github_issue_repo", "r"),
      ("github_issue_number", "1")] : List (String × String)).lookup
        "issue_number" = none := by
  refine ⟨?_, by decide, by decide⟩
  decide

/-- C4 (amended): a validation of category "github" whose value parses
and whose fetched issue is open returns `valid=true`, empty errors, and
the annotation map `{github_issue_url: value, github_issue_owner: owner,
github_issue_repo: repository, github_issue_number: stringified
number}`. -/
theorem C4_valid_response_contents (α : Type) (v : Validator α)
    (env : TokenEnv) (f : GoClient → String → String → Int → FetchResult)
    (value t : String) (info : PluginGitHubIssue)
    (hp : parseIssueInfoFromURL value = .ok info)
    (ht : getAccessToken env info.RepoName = .ok t)
    (hf : f (withAuthToken v.client t) info.Owner info.RepoName
      info.IssueNumber = .ok "open") :
    Validate v env f githubCategory value
      = .ok ({ v with client := withAuthToken v.client t }, .resp ⟨true,
          [(respAnnotationKeyIssueURL, value),
           (respAnnotationKeyIssueOwner, info.Owner),
           (respAnnotationKeyIssueRepo, info.RepoName),
           (respAnnotationKeyIssueNumber, goItoa info.IssueNumber)], []⟩) := by
  simp [Validate, MatchIssue, hp, ht, hf, validateIssue]

/-- Witness for the amended C4 at a concrete open issue. -/
theorem C4_witness :
    parseIssueInfoFromURL "https://github.com/o/r/issues/1"
        = .ok ⟨"o", "r", 1⟩ ∧
    getAccessToken envTokenOk ("r" : String) = .ok "tok" ∧
    fetchOpen (withAuthToken v0.client "tok") "o" "r" 1 = .ok "open" ∧
    Validate v0 envTokenOk fetchOpen githubCategory
        "https://github.com/o/r/issues/1"
      = .ok ({ v0 with client := withAuthToken v0.client "tok" }, .resp ⟨true,
          [(respAnnotationKeyIssueURL, "https://github.com/o/r/issues/1"),
           (respAnnotationKeyIssueOwner, "o"),
           (respAnnotationKeyIssueRepo, "r"),
           (respAnnotationKeyIssueNumber, goItoa 1)], []⟩) := by
  refine ⟨by decide, rfl, rfl, ?_⟩
  exact C4_valid_response_contents Unit v0 envTokenOk fetchOpen
    "https://github.com/o/r/issues/1" "tok" ⟨"o", "r", 1⟩ (by decide) rfl rfl

/-- C5: a category other than the literal "github" is rejected with a
`valid=false` response and the explanatory message, and the result does
not depend on the network collaborators (no token exchange and no issue
fetch can influence it). -/
theorem C5_non_github_category_rejected {α : Type} (v : Validator α)
    (env₁ env₂ : TokenEnv)
    (f₁ f₂ : GoClient → String → String → Int → FetchResult)
    (category value : String) (h : category ≠ githubCategory) :
    Validate v env₁ f₁ category value
      = .ok (v, .resp ⟨false, [], [categoryErrMsg category]⟩) ∧
    Validate v env₁ f₁ category value = Validate v env₂ f₂ category value := by
  constructor <;> simp [Validate, h]

/-- Witness for C5 at the category "jira". -/
theorem C5_witness :
    ("jira" : String) ≠ githubCategory ∧
    Validate v0 envTokenOk fetchOpen "jira" "x"
      = .ok (v0, .resp ⟨false, [], [categoryErrMsg "jira"]⟩) := by
  refine ⟨by decide, ?_⟩
  exact (C5_non_github_category_rejected v0 envTokenOk envTokenOk fetchOpen
    fetchOpen "jira" "x" (by decide)).1

/-- C9 counterexample: `MatchIssue` does mutate a field of the Validator:
after a successful token exchange the `client` field has been overwritten
with the token-authenticated copy, so it differs from its value before
the call. -/
theorem C9_counterexample :
    MatchIssue v0 envTokenOk fetchOpen "https://github.com/o/r/issues/1"
      = .ok (⟨⟨some "tok"⟩, ()⟩, some ⟨"o", "r", 1⟩, none) ∧
    (⟨⟨some "tok"⟩, ()⟩ : Validator Unit).client ≠ v0.client := by
  exact ⟨by decide, by decide⟩

/-- C9 (amended): across a `MatchIssue` call the `githubApp` field is
unchanged, and the `client` field is either unchanged (paths that fail
before the token exchange completes) or overwritten with the
token-authenticated copy of the previous client. -/
theorem C9_validator_state_after_MatchIssue {α : Type} (v v' : Validator α)
    (env : TokenEnv) (f : GoClient → String → String → Int → FetchResult)
    (url : String) (i : Option PluginGitHubIssue) (e : Option GoError)
    (h : MatchIssue v env f url = .ok (v', i, e)) :
    v'.githubApp = v.githubApp ∧
    (v'.client = v.client ∨ ∃ t, v'.client = withAuthToken v.client t) := by
  unfold MatchIssue at h
  split at h
  · exact absurd h (by simp)
  · simp only [GoResult.ok.injEq, Prod.mk.injEq] at h
    obtain ⟨hv, -, -⟩ := h
    subst hv
    exact ⟨rfl, Or.inl rfl⟩
  · rename_i info _
    split at h
    · simp only [GoResult.ok.injEq, Prod.mk.injEq] at h
      obtain ⟨hv, -, -⟩ := h
      subst hv
      exact ⟨rfl, Or.inl rfl⟩
    · rename_i t _
      split at h
      · exact absurd h (by simp)
      · simp only [GoResult.ok.injEq, Prod.mk.injEq] at h
        obtain ⟨hv, -, -⟩ := h
        subst hv
        exact ⟨rfl, Or.inr ⟨t, rfl⟩⟩

/-- Witness for the amended C9 on a run that overwrites the client. -/
theorem C9_witness :
    MatchIssue v0 envTokenOk fetchOpen "https://github.com/o/r/issues/1"
      = .ok (⟨⟨some "tok"⟩, ()⟩, some ⟨"o", "r", 1⟩, none) ∧
    (⟨⟨some "tok"⟩, ()⟩ : Validator Unit).githubApp = v0.githubApp ∧
    ((⟨⟨some "tok"⟩, ()⟩ : Validator Unit).client = v0.client ∨
      ∃ t, (⟨⟨some "tok"⟩, ()⟩ : Validator Unit).client
        = withAuthToken v0.client t) := by
  have h : MatchIssue v0 envTokenOk fetchOpen "https://github.com/o/r/issues/1"
      = .ok (⟨⟨some "tok"⟩, ()⟩, some ⟨"o", "r", 1⟩, none) := by decide
  have h2 := C9_validator_state_after_MatchIssue v0 ⟨⟨some "tok"⟩, ()⟩
    envTokenOk fetchOpen "https://github.com/o/r/issues/1"
    (some ⟨"o", "r", 1⟩) none h
  exact ⟨h, h2.1, h2.2⟩

/-- C10: whenever the URL parses and the token exchange succeeds (and the
issue fetch completes with an HTTP response), `MatchIssue` returns the
parsed issue reference as its first result — also when it returns an
error alongside (issue not found, issue not open, or fetch fault). -/
theorem C10_reference_returned_alongside_error {α : Type} (v : Validator α)
    (env : TokenEnv) (f : GoClient → String → String → Int → FetchResult)
    (url t : String) (info : PluginGitHubIssue)
    (hp : parseIssueInfoFromURL url = .ok info)
    (ht : getAccessToken env info.RepoName = .ok t)
    (hf : ∀ m, f (withAuthToken v.client t) info.Owner info.RepoName
      info.IssueNumber ≠ .err none m) :
    ∃ e, MatchIssue v env f url
      = .ok ({ v with client := withAuthToken v.client t }, some info, e) := by
  have hex : ∃ e0, validateIssue (f (withAuthToken v.client t) info.Owner
      info.RepoName info.IssueNumber) = .ok e0 := by
    cases hfe : f (withAuthToken v.client t) info.Owner info.RepoName
        info.IssueNumber with
    | ok s =>
      simp only [validateIssue]
      split
      next => exact ⟨_, rfl⟩
      next => exact ⟨_, rfl⟩
    | err st m =>
      cases st with
      | none => exact absurd hfe (hf m)
      | some st2 =>
        simp only [validateIssue]
        split
        next => exact ⟨_, rfl⟩
        next => exact ⟨_, rfl⟩
  obtain ⟨e0, he0⟩ := hex
  exact ⟨e0, by simp [MatchIssue, hp, ht, he0]⟩


/-- Witness for C10 on a 404 fetch: the parsed reference is returned next
to the invalid-justification error. -/
theorem C10_witness :
    parseIssueInfoFromURL "https://github.com/o/r/issues/1"
        = .ok ⟨"o", "r", 1⟩ ∧
    getAccessToken envTokenOk ("r" : String) = .ok "tok" ∧
    (∀ m, fetchNotFound (withAuthToken v0.client "tok") "o" "r" 1
      ≠ .err none m) ∧
    ∃ e, MatchIssue v0 envTokenOk fetchNotFound
        "https://github.com/o/r/issues/1"
      = .ok ({ v0 with client := withAuthToken v0.client "tok" },
          some ⟨"o", "r", 1⟩, e) := by
  refine ⟨by decide, rfl, fun m => by simp [fetchNotFound], ?_⟩
  exact C10_reference_returned_alongside_error v0 envTokenOk fetchNotFound
    "https://github.com/o/r/issues/1" "tok" ⟨"o", "r", 1⟩ (by decide) rfl
    (fun m => by simp [fetchNotFound])

/-- Witness for C1, one instance per classification case. -/
theorem C1_witness :
    (validateIssue (.err (some 404) "404 Not Found")
        = .ok (some ⟨true, errIJText ++ ": issue not found: " ++
            "404 Not Found"⟩) ∧
      strContains (errIJText ++ ": issue not found: " ++ "404 Not Found")
        "issue not found") ∧
    ((500 : Nat) ≠ 404 ∧
      validateIssue (.err (some 500) "boom")
        = .ok (some ⟨false, "failed to get issue info: " ++ "boom"⟩) ∧
      strContains ("failed to get issue info: " ++ "boom")
        "failed to get issue info") ∧
    (("closed" : String) ≠ "open" ∧
      validateIssue (.ok "closed")
        = .ok (some ⟨true, errIJText ++ ": issue is in state: " ++ "closed" ++
            ", please make sure to use an open issue"⟩) ∧
      strContains (errIJText ++ ": issue is in state: " ++ "closed" ++
          ", please make sure to use an open issue")
        ("issue is in state: " ++ "closed" ++
          ", please make sure to use an open issue")) ∧
    (parseIssueInfoFromURL "https://github.com/o/r/issues/1"
        = .ok ⟨"o", "r", 1⟩ ∧
      getAccessToken envTokenOk ("r" : String) = .ok "tok" ∧
      fetchOpen (withAuthToken v0.client "tok") "o" "r" 1 = .ok "open" ∧
      MatchIssue v0 envTokenOk fetchOpen "https://github.com/o/r/issues/1"
        = .ok ({ v0 with client := withAuthToken v0.client "tok" },
            some ⟨"o", "r", 1⟩, none)) := by
  have h := C1_fetch_outcome_classification
  exact ⟨h.1 "404 Not Found",
    ⟨by decide, h.2.1 500 "boom" (by decide)⟩,
    ⟨by decide, h.2.2.1 "closed" (by decide)⟩,
    by decide, rfl, rfl,
    h.2.2.2 Unit v0 envTokenOk fetchOpen "https://github.com/o/r/issues/1"
      ⟨"o", "r", 1⟩ "tok" (by decide) rfl rfl⟩

/-! ## Arithmetic facts about the character classes -/

/-- Unpacking `alnumHyphen` into code-point ranges. -/
theorem alnumHyphen_toNat (c : Char) (h : alnumHyphen c = true) :
    (65 ≤ c.toNat ∧ c.toNat ≤ 90) ∨ (97 ≤ c.toNat ∧ c.toNat ≤ 122) ∨
    (48 ≤ c.toNat ∧ c.toNat ≤ 57) ∨ c.toNat = 45 := by
  simpa [alnumHyphen] using h

/-- Unpacking `digitChar` into a code-point range. -/
theorem digitChar_toNat (c : Char) (h : digitChar c = true) :
    48 ≤ c.toNat ∧ c.toNat ≤ 57 := by
  simpa [digitChar] using h

/-- Unpacking `goHostChar` into code points. -/
theorem goHostChar_toNat (c : Char) (h : goHostChar c = true) :
    (65 ≤ c.toNat ∧ c.toNat ≤ 90) ∨ (97 ≤ c.toNat ∧ c.toNat ≤ 122) ∨
    (48 ≤ c.toNat ∧ c.toNat ≤ 57) ∨ c.toNat = 45 ∨ c.toNat = 95 ∨
    c.toNat = 46 ∨ c.toNat = 126 ∨ c.toNat = 33 ∨ c.toNat = 36 ∨
    c.toNat = 38 ∨ c.toNat = 39 ∨ c.toNat = 40 ∨ c.toNat = 41 ∨
    c.toNat = 42 ∨ c.toNat = 43 ∨ c.toNat = 44 ∨ c.toNat = 59 ∨
    c.toNat = 61 ∨ c.toNat = 91 ∨ c.toNat = 93 ∨ c.toNat = 60 ∨
    c.toNat = 62 ∨ c.toNat = 34 ∨ 128 ≤ c.toNat := by
  simp only [goHostChar, alnumHyphen, Bool.or_eq_true, decide_eq_true_eq] at h
  omega

/-- notSQH from code-point inequalities. -/
theorem notSQH_of_toNat (c : Char) (h47 : c.toNat ≠ 47) (h63 : c.toNat ≠ 63)
    (h35 : c.toNat ≠ 35) : notSQH c = true := by
  have h1 : c ≠ '/' := fun he => h47 (by rw [he]; rfl)
  have h2 : c ≠ '?' := fun he => h63 (by rw [he]; rfl)
  have h3 : c ≠ '#' := fun he => h35 (by rw [he]; rfl)
  simp [notSQH, h1, h2, h3]

/-- notQH from code-point inequalities. -/
theorem notQH_of_toNat (c : Char) (h63 : c.toNat ≠ 63) (h35 : c.toNat ≠ 35) :
    notQH c = true := by
  have h2 : c ≠ '?' := fun he => h63 (by rw [he]; rfl)
  have h3 : c ≠ '#' := fun he => h35 (by rw [he]; rfl)
  simp [notQH, h2, h3]

/-- A character at code point 32..126 below 127 or at/above 128 is not a
control character. -/
theorem isCTLChar_false_of_toNat (c : Char) (h32 : 32 ≤ c.toNat)
    (h127 : c.toNat ≠ 127) : isCTLChar c = false := by
  simp only [isCTLChar, decide_eq_false_iff_not]
  omega

/-- The facts about `[a-zA-Z0-9-]` characters used along the URL-parsing
computation. -/
theorem alnumHyphen_support (c : Char) (h : alnumHyphen c = true) :
    notSQH c = true ∧ notQH c = true ∧ isCTLChar c = false ∧
    c ≠ '/' ∧ c ≠ '@' ∧ c ≠ ':' := by
  have hn := alnumHyphen_toNat c h
  refine ⟨notSQH_of_toNat c (by omega) (by omega) (by omega),
    notQH_of_toNat c (by omega) (by omega),
    isCTLChar_false_of_toNat c (by omega) (by omega),
    fun he => absurd (show c.toNat = 47 by rw [he]; rfl) (by omega),
    fun he => absurd (show c.toNat = 64 by rw [he]; rfl) (by omega),
    fun he => absurd (show c.toNat = 58 by rw [he]; rfl) (by omega)⟩

/-- The facts about digit characters used along the computation. -/
theorem digitChar_support (c : Char) (h : digitChar c = true) :
    notSQH c = true ∧ notQH c = true ∧ isCTLChar c = false ∧
    c ≠ '/' ∧ c ≠ '@' ∧ c ≠ ':' ∧ c ≠ '-' ∧ c ≠ '+' := by
  have hn := digitChar_toNat c h
  refine ⟨notSQH_of_toNat c (by omega) (by omega) (by omega),
    notQH_of_toNat c (by omega) (by omega),
    isCTLChar_false_of_toNat c (by omega) (by omega),
    fun he => absurd (show c.toNat = 47 by rw [he]; rfl) (by omega),
    fun he => absurd (show c.toNat = 64 by rw [he]; rfl) (by omega),
    fun he => absurd (show c.toNat = 58 by rw [he]; rfl) (by omega),
    fun he => absurd (show c.toNat = 45 by rw [he]; rfl) (by omega),
    fun he => absurd (show c.toNat = 43 by rw [he]; rfl) (by omega)⟩

/-- The facts about valid host characters used along the computation. -/
theorem goHostChar_support (c : Char) (h : goHostChar c = true) :
    notSQH c = true ∧ isCTLChar c = false ∧ c ≠ '\n' ∧
    c ≠ '@' ∧ c ≠ ':' ∧ c ≠ '/' ∧ c ≠ '?' ∧ c ≠ '#' := by
  have hn := goHostChar_toNat c h
  refine ⟨notSQH_of_toNat c (by omega) (by omega) (by omega),
    isCTLChar_false_of_toNat c (by omega) (by omega),
    fun he => absurd (show c.toNat = 10 by rw [he]; rfl) (by omega),
    fun he => absurd (show c.toNat = 64 by rw [he]; rfl) (by omega),
    fun he => absurd (show c.toNat = 58 by rw [he]; rfl) (by omega),
    fun he => absurd (show c.toNat = 47 by rw [he]; rfl) (by omega),
    fun he => absurd (show c.toNat = 63 by rw [he]; rfl) (by omega),
    fun he => absurd (show c.toNat = 35 by rw [he]; rfl) (by omega)⟩

/-! ## The shape of strings matching the issue-URL pattern -/

/-- The path tail `owner / repo / issues / digits` of a matching URL. -/
def urlTail (a b d : List Char) : List Char :=
  a ++ '/' :: (b ++ '/' :: (litIssues ++ '/' :: d))

/-- The full character shape of a string matching the pattern: the
literal `https://github`, one arbitrary character where the unescaped
`.` stands, the literal `com/`, and the segment tail. -/
def urlShape (c : Char) (a b d : List Char) : List Char :=
  litHttpsGithub ++ c :: (litComSlash ++ urlTail a b d)

/-- Case split for membership in the tail. -/
theorem mem_urlTail (a b d : List Char) (x : Char) (hx : x ∈ urlTail a b d) :
    x ∈ a ∨ x ∈ b ∨ x ∈ d ∨ x ∈ litIssues ∨ x = '/' := by
  simp only [urlTail, List.mem_append, List.mem_cons] at hx
  tauto

/-- Splitting the tail on slashes recovers the four segments. -/
theorem splitSlash_urlTail (a b d : List Char)
    (ha : ∀ x ∈ a, x ≠ '/') (hb : ∀ x ∈ b, x ≠ '/')
    (hd : ∀ x ∈ d, x ≠ '/') :
    splitSlash (urlTail a b d) = [a, b, litIssues, d] := by
  unfold urlTail
  rw [splitSlash_append a _ ha, splitSlash_append b _ hb,
    splitSlash_append litIssues _ (by decide), splitSlash_no_slash d hd]

/-- All-membership facts are inherited through `List.all`. -/
theorem all_ne_slash_of_alnumHyphen (a : List Char)
    (ha : a.all alnumHyphen = true) : ∀ x ∈ a, x ≠ '/' :=
  fun x hx => (alnumHyphen_support x (List.all_eq_true.mp ha x hx)).2.2.2.1

/-- Digit segments are slash-free. -/
theorem all_ne_slash_of_digit (d : List Char)
    (hd : d.all digitChar = true) : ∀ x ∈ d, x ≠ '/' :=
  fun x hx => (digitChar_support x (List.all_eq_true.mp hd x hx)).2.2.2.1

/-- `strconv.Atoi` on a non-empty digit string within the int64 range
returns its decimal value. -/
theorem goAtoi_digits (d : List Char) (hd : d.all digitChar = true)
    (hne : d ≠ []) (hval : digitsVal d ≤ 2 ^ 63 - 1) :
    goAtoi d = .ok (digitsVal d : Int) := by
  cases d with
  | nil => exact absurd rfl hne
  | cons c0 rest =>
    have h0 : digitChar c0 = true := by
      have := List.all_eq_true.mp hd c0 (by simp)
      exact this
    have hsupp := digitChar_support c0 h0
    have hm : decide (c0 = '-') = false := by simp [hsupp.2.2.2.2.2.2.1]
    have hp : decide (c0 = '+') = false := by simp [hsupp.2.2.2.2.2.2.2]
    simp only [goAtoi, hm, hp, Bool.or_self, Bool.false_eq_true, if_false,
      List.isEmpty_cons, hd, if_true]
    exact if_pos hval

/-- A string of the matching shape passes the regex gate (newline is the
only character the unescaped dot refuses). -/
theorem issueURLMatch_shape (c : Char) (a b d : List Char)
    (hcn : c ≠ '\n')
    (ha : a.all alnumHyphen = true) (hb : b.all alnumHyphen = true)
    (hd : d.all digitChar = true) (hdne : d ≠ []) :
    issueURLMatch (urlShape c a b d) = true := by
  have h14 : litHttpsGithub.length = 14 := rfl
  have h4 : litComSlash.length = 4 := rfl
  have hdrop : (urlShape c a b d).drop 14
      = c :: (litComSlash ++ urlTail a b d) := List.drop_left' h14
  have htake : (urlShape c a b d).take 14 = litHttpsGithub :=
    List.take_left' h14
  have hde : d.isEmpty = false := by
    cases d with
    | nil => exact absurd rfl hdne
    | cons x xs => rfl
  have hrm : restMatch (urlTail a b d) = true := by
    unfold restMatch
    rw [splitSlash_urlTail a b d (all_ne_slash_of_alnumHyphen a ha)
      (all_ne_slash_of_alnumHyphen b hb) (all_ne_slash_of_digit d hd)]
    simp [ha, hb, hd, hde]
  simp only [issueURLMatch, hdrop]
  rw [htake, List.take_left' h4, List.drop_left' h4, hrm]
  simp [hcn]

/-- On a matching-shape string whose dot-position character is a valid
host character, the embedded `net/url.Parse` extracts the path
`/owner/repo/issues/digits`. -/
theorem goURLPath_shape (c : Char) (a b d : List Char)
    (hc : goHostChar c = true)
    (ha : a.all alnumHyphen = true) (hb : b.all alnumHyphen = true)
    (hd : d.all digitChar = true) :
    goURLPath (urlShape c a b d) = .ok ('/' :: urlTail a b d) := by
  obtain ⟨hcsqh, hcctl, hcnl, hcat, hccol, hcsl, hcq, hch⟩ :=
    goHostChar_support c hc
  have hctl : (urlShape c a b d).any isCTLChar = false := by
    rw [List.any_eq_false]
    intro x hx
    simp only [urlShape, List.mem_append, List.mem_cons] at hx
    rcases hx with hx | hx | hx | hx
    · simp [(by decide : ∀ x ∈ litHttpsGithub, isCTLChar x = false) x hx]
    · subst hx; simp [hcctl]
    · simp [(by decide : ∀ x ∈ litComSlash, isCTLChar x = false) x hx]
    · rcases mem_urlTail a b d x hx with h' | h' | h' | h' | h'
      · simp [(alnumHyphen_support x (List.all_eq_true.mp ha x h')).2.2.1]
      · simp [(alnumHyphen_support x (List.all_eq_true.mp hb x h')).2.2.1]
      · simp [(digitChar_support x (List.all_eq_true.mp hd x h')).2.2.1]
      · simp [(by decide : ∀ x ∈ litIssues, isCTLChar x = false) x h']
      · subst h'; decide
  have hscheme : urlShape c a b d
      = litHttps ++ (litGithub ++ c :: (litComSlash ++ urlTail a b d)) := by
    unfold urlShape
    rw [show litHttpsGithub = litHttps ++ litGithub from rfl, List.append_assoc]
  have h8 : litHttps.length = 8 := rfl
  have htake8 : (urlShape c a b d).take 8 = litHttps := by
    rw [hscheme]; exact List.take_left' h8
  have hdrop8 : (urlShape c a b d).drop 8
      = litGithub ++ c :: (litComSlash ++ urlTail a b d) := by
    rw [hscheme]; exact List.drop_left' h8
  have hshape2 : litGithub ++ c :: (litComSlash ++ urlTail a b d)
      = (litGithub ++ c :: litCom) ++ '/' :: urlTail a b d := by
    rw [show litComSlash = litCom ++ ['/'] from rfl]
    simp [List.append_assoc]
  have hallAuth : ∀ x ∈ litGithub ++ c :: litCom, notSQH x = true := by
    intro x hx
    simp only [List.mem_append, List.mem_cons] at hx
    rcases hx with hx | hx | hx
    · exact (by decide : ∀ x ∈ litGithub, notSQH x = true) x hx
    · subst hx; exact hcsqh
    · exact (by decide : ∀ x ∈ litCom, notSQH x = true) x hx
  have hauth : (litGithub ++ c :: (litComSlash ++ urlTail a b d)).takeWhile notSQH
      = litGithub ++ c :: litCom := by
    rw [hshape2, takeWhile_all_append notSQH _ _ hallAuth]
    simp [List.takeWhile_cons, show notSQH '/' = false from by decide]
  have hlen10 : (litGithub ++ c :: litCom).length = 10 := rfl
  have hdropauth : (litGithub ++ c :: (litComSlash ++ urlTail a b d)).drop 10
      = '/' :: urlTail a b d := by
    rw [hshape2]; exact List.drop_left' hlen10
  have hav : authorityValid (litGithub ++ c :: litCom) = true := by
    unfold authorityValid
    have hat : ¬('@' ∈ litGithub ++ c :: litCom) := by
      simp only [List.mem_append, List.mem_cons]
      push_neg
      exact ⟨by decide, fun he => hcat he.symm, by decide⟩
    rw [if_neg (by simpa using hat)]
    unfold hostValid
    have hcol : ¬(':' ∈ litGithub ++ c :: litCom) := by
      simp only [List.mem_append, List.mem_cons]
      push_neg
      exact ⟨by decide, fun he => hccol he.symm, by decide⟩
    rw [if_neg (by simpa using hcol)]
    rw [List.all_eq_true]
    intro x hx
    simp only [List.mem_append, List.mem_cons] at hx
    rcases hx with hx | hx | hx
    · exact (by decide : ∀ x ∈ litGithub, goHostChar x = true) x hx
    · subst hx; exact hc
    · exact (by decide : ∀ x ∈ litCom, goHostChar x = true) x hx
  have hpath : ('/' :: urlTail a b d).takeWhile notQH
      = '/' :: urlTail a b d := by
    rw [List.takeWhile_eq_self_iff]
    intro x hx
    rcases List.mem_cons.mp hx with hx | hx
    · subst hx; decide
    · rcases mem_urlTail a b d x hx with h' | h' | h' | h' | h'
      · exact (alnumHyphen_support x (List.all_eq_true.mp ha x h')).2.1
      · exact (alnumHyphen_support x (List.all_eq_true.mp hb x h')).2.1
      · exact (digitChar_support x (List.all_eq_true.mp hd x h')).2.1
      · exact (by decide : ∀ x ∈ litIssues, notQH x = true) x h'
      · subst h'; decide
  simp only [goURLPath, hctl, Bool.false_eq_true, if_false, htake8, hdrop8,
    eq_self_iff_true, if_true, hauth, hlen10, hav, hdropauth, hpath]

/-- The parser accepts every string of the matching shape whose
dot-position character is host-valid and whose number fits in int64,
returning exactly the two segments and the decimal value. -/
theorem parse_accepts_shape (c : Char) (a b d : List Char)
    (hc : goHostChar c = true)
    (ha : a.all alnumHyphen = true) (hb : b.all alnumHyphen = true)
    (hd : d.all digitChar = true) (hdne : d ≠ [])
    (hval : digitsVal d ≤ 2 ^ 63 - 1) :
    parseIssueInfoFromURL ⟨urlShape c a b d⟩
      = .ok ⟨⟨a⟩, ⟨b⟩, (digitsVal d : Int)⟩ := by
  have hcn : c ≠ '\n' := (goHostChar_support c hc).2.2.1
  have hmatch := issueURLMatch_shape c a b d hcn ha hb hd hdne
  have hurl := goURLPath_shape c a b d hc ha hb hd
  have hsplit : splitSlash ('/' :: urlTail a b d) = [[], a, b, litIssues, d] := by
    rw [splitSlash_cons_slash, splitSlash_urlTail a b d
      (all_ne_slash_of_alnumHyphen a ha) (all_ne_slash_of_alnumHyphen b hb)
      (all_ne_slash_of_digit d hd)]
  have hatoi := goAtoi_digits d hd hdne hval
  simp only [parseIssueInfoFromURL, hmatch, if_true, hurl, hsplit, hatoi]

/-- No control character occurs in a matching-shape string whose
dot-position character is not a control character. -/
theorem urlShape_ctl_false (c : Char) (a b d : List Char)
    (hcctl : isCTLChar c = false)
    (ha : a.all alnumHyphen = true) (hb : b.all alnumHyphen = true)
    (hd : d.all digitChar = true) :
    (urlShape c a b d).any isCTLChar = false := by
  rw [List.any_eq_false]
  intro x hx
  simp only [urlShape, List.mem_append, List.mem_cons] at hx
  rcases hx with hx | hx | hx | hx
  · simp [(by decide : ∀ x ∈ litHttpsGithub, isCTLChar x = false) x hx]
  · subst hx; simp [hcctl]
  · simp [(by decide : ∀ x ∈ litComSlash, isCTLChar x = false) x hx]
  · rcases mem_urlTail a b d x hx with h' | h' | h' | h' | h'
    · simp [(alnumHyphen_support x (List.all_eq_true.mp ha x h')).2.2.1]
    · simp [(alnumHyphen_support x (List.all_eq_true.mp hb x h')).2.2.1]
    · simp [(digitChar_support x (List.all_eq_true.mp hd x h')).2.2.1]
    · simp [(by decide : ∀ x ∈ litIssues, isCTLChar x = false) x h']
    · subst h'; decide

/-- Every character of the tail passes the path scan. -/
theorem urlTail_notQH (a b d : List Char)
    (ha : a.all alnumHyphen = true) (hb : b.all alnumHyphen = true)
    (hd : d.all digitChar = true) :
    ∀ x ∈ urlTail a b d, notQH x = true := by
  intro x hx
  rcases mem_urlTail a b d x hx with h' | h' | h' | h' | h'
  · exact (alnumHyphen_support x (List.all_eq_true.mp ha x h')).2.1
  · exact (alnumHyphen_support x (List.all_eq_true.mp hb x h')).2.1
  · exact (digitChar_support x (List.all_eq_true.mp hd x h')).2.1
  · exact (by decide : ∀ x ∈ litIssues, notQH x = true) x h'
  · subst h'; decide

/-- Authority scan when the dot-position character is not a delimiter. -/
theorem auth_takeWhile_go (c : Char) (a b d : List Char)
    (hcsqh : notSQH c = true) :
    (litGithub ++ c :: (litComSlash ++ urlTail a b d)).takeWhile notSQH
      = litGithub ++ c :: litCom := by
  have hshape2 : litGithub ++ c :: (litComSlash ++ urlTail a b d)
      = (litGithub ++ c :: litCom) ++ '/' :: urlTail a b d := by
    rw [show litComSlash = litCom ++ ['/'] from rfl]
    simp [List.append_assoc]
  have hallAuth : ∀ x ∈ litGithub ++ c :: litCom, notSQH x = true := by
    intro x hx
    simp only [List.mem_append, List.mem_cons] at hx
    rcases hx with hx | hx | hx
    · exact (by decide : ∀ x ∈ litGithub, notSQH x = true) x hx
    · subst hx; exact hcsqh
    · exact (by decide : ∀ x ∈ litCom, notSQH x = true) x hx
  rw [hshape2, takeWhile_all_append notSQH _ _ hallAuth]
  simp [List.takeWhile_cons, show notSQH '/' = false from by decide]

/-- Authority scan when the dot-position character is a delimiter: it
stops right after `github`. -/
theorem auth_takeWhile_stop (c : Char) (a b d : List Char)
    (hcsqh : notSQH c = false) :
    (litGithub ++ c :: (litComSlash ++ urlTail a b d)).takeWhile notSQH
      = litGithub := by
  rw [takeWhile_all_append notSQH _ _ (by decide), List.takeWhile_cons, hcsqh]
  simp

/-- Inversion of the regex gate: a matching string has the matching
shape. -/
theorem issueURLMatch_inv (cs : List Char) (h : issueURLMatch cs = true) :
    ∃ (c : Char) (a b d : List Char), cs = urlShape c a b d ∧ c ≠ '\n' ∧
      a.all alnumHyphen = true ∧ b.all alnumHyphen = true ∧
      d.all digitChar = true ∧ d ≠ [] := by
  unfold issueURLMatch at h
  cases hdrop : cs.drop 14 with
  | nil => rw [hdrop] at h; cases h
  | cons c rest =>
    rw [hdrop] at h
    simp only [Bool.and_eq_true, decide_eq_true_eq] at h
    obtain ⟨⟨⟨h14, hnl⟩, h4⟩, hrm⟩ := h
    have hnl' : c ≠ '\n' := by
      intro he
      rw [he] at hnl
      simp at hnl
    unfold restMatch at hrm
    split at hrm
    case h_2 => cases hrm
    case h_1 a b i d hsp =>
      simp only [Bool.and_eq_true, decide_eq_true_eq, Bool.not_eq_true',
        List.isEmpty_eq_false] at hrm
      obtain ⟨⟨⟨⟨ha, hb⟩, hi⟩, hdne⟩, hd⟩ := hrm
      subst hi
      refine ⟨c, a, b, d, ?_, hnl', ha, hb, hd, hdne⟩
      have htail : rest.drop 4 = urlTail a b d := by
        have hj := joinSlash_splitSlash (rest.drop 4)
        rw [hsp] at hj
        simpa [joinSlash, urlTail] using hj.symm
      have hrest : rest = litComSlash ++ urlTail a b d := by
        conv_lhs => rw [← List.take_append_drop 4 rest]
        rw [h4, htail]
      have hcs : cs = litHttpsGithub ++ c :: rest := by
        conv_lhs => rw [← List.take_append_drop 14 cs]
        rw [h14, hdrop]
      rw [hcs, hrest]
      rfl

/-- Exhaustive description of the embedded `url.Parse` on matching-shape
strings: an error (control character, or invalid authority), the long
path when the dot position holds `/`, the empty path when it holds `?`
or `#`, or the intended `/owner/repo/issues/digits` path. -/
theorem goURLPath_shape_cases (c : Char) (a b d : List Char)
    (ha : a.all alnumHyphen = true) (hb : b.all alnumHyphen = true)
    (hd : d.all digitChar = true) :
    goURLPath (urlShape c a b d) = .error () ∨
    (c = '/' ∧ goURLPath (urlShape c a b d)
        = .ok ('/' :: (litCom ++ '/' :: urlTail a b d))) ∨
    ((c = '?' ∨ c = '#') ∧ goURLPath (urlShape c a b d) = .ok []) ∨
    (authorityValid (litGithub ++ c :: litCom) = true ∧
      goURLPath (urlShape c a b d) = .ok ('/' :: urlTail a b d)) := by
  by_cases hctl : isCTLChar c = true
  · left
    have hany : (urlShape c a b d).any isCTLChar = true :=
      List.any_eq_true.mpr ⟨c, by simp [urlShape], hctl⟩
    simp [goURLPath, hany]
  · have hcctl : isCTLChar c = false := by
      cases hcv : isCTLChar c with
      | true => exact absurd hcv hctl
      | false => rfl
    have hany := urlShape_ctl_false c a b d hcctl ha hb hd
    have hscheme : urlShape c a b d
        = litHttps ++ (litGithub ++ c :: (litComSlash ++ urlTail a b d)) := by
      unfold urlShape
      rw [show litHttpsGithub = litHttps ++ litGithub from rfl,
        List.append_assoc]
    have h8 : litHttps.length = 8 := rfl
    have htake8 : (urlShape c a b d).take 8 = litHttps := by
      rw [hscheme]; exact List.take_left' h8
    have hdrop8 : (urlShape c a b d).drop 8
        = litGithub ++ c :: (litComSlash ++ urlTail a b d) := by
      rw [hscheme]; exact List.drop_left' h8
    by_cases hsqh : notSQH c = true
    · have hauth := auth_takeWhile_go c a b d hsqh
      have hshape2 : litGithub ++ c :: (litComSlash ++ urlTail a b d)
          = (litGithub ++ c :: litCom) ++ '/' :: urlTail a b d := by
        rw [show litComSlash = litCom ++ ['/'] from rfl]
        simp [List.append_assoc]
      have hlen10 : (litGithub ++ c :: litCom).length = 10 := rfl
      have hdropauth :
          (litGithub ++ c :: (litComSlash ++ urlTail a b d)).drop 10
            = '/' :: urlTail a b d := by
        rw [hshape2]; exact List.drop_left' hlen10
      by_cases hav : authorityValid (litGithub ++ c :: litCom) = true
      · right; right; right
        refine ⟨hav, ?_⟩
        have hpath : ('/' :: urlTail a b d).takeWhile notQH
            = '/' :: urlTail a b d := by
          rw [List.takeWhile_eq_self_iff]
          intro x hx
          rcases List.mem_cons.mp hx with hx | hx
          · subst hx; decide
          · exact urlTail_notQH a b d ha hb hd x hx
        simp only [goURLPath, hany, Bool.false_eq_true, if_false, htake8,
          hdrop8, eq_self_iff_true, if_true, hauth, hlen10, hav, hdropauth,
          hpath]
      · left
        have hav' : authorityValid (litGithub ++ c :: litCom) = false := by
          cases hv : authorityValid (litGithub ++ c :: litCom) with
          | true => exact absurd hv hav
          | false => rfl
        simp only [goURLPath, hany, Bool.false_eq_true, if_false, htake8,
          hdrop8, eq_self_iff_true, if_true, hauth, hav', hlen10]
    · have hc3 : c = '/' ∨ c = '?' ∨ c = '#' := by
        by_contra hne
        push_neg at hne
        exact hsqh (by simp [notSQH, hne.1, hne.2.1, hne.2.2])
      have hsqh' : notSQH c = false := by
        cases hv : notSQH c with
        | true => exact absurd hv hsqh
        | false => rfl
      have hauth := auth_takeWhile_stop c a b d hsqh'
      have hlen6 : litGithub.length = 6 := rfl
      have hdropauth :
          (litGithub ++ c :: (litComSlash ++ urlTail a b d)).drop 6
            = c :: (litComSlash ++ urlTail a b d) := List.drop_left' hlen6
      have hav6 : authorityValid litGithub = true := by decide
      rcases hc3 with hc | hc | hc
      · right; left
        refine ⟨hc, ?_⟩
        subst hc
        have hpath : ('/' :: (litComSlash ++ urlTail a b d)).takeWhile notQH
            = '/' :: (litComSlash ++ urlTail a b d) := by
          rw [List.takeWhile_eq_self_iff]
          intro x hx
          rcases List.mem_cons.mp hx with hx | hx
          · subst hx; decide
          · rcases List.mem_append.mp hx with hx | hx
            · exact (by decide : ∀ x ∈ litComSlash, notQH x = true) x hx
            · exact urlTail_notQH a b d ha hb hd x hx
        have hcomtail : litComSlash ++ urlTail a b d
            = litCom ++ '/' :: urlTail a b d := by
          rw [show litComSlash = litCom ++ ['/'] from rfl]
          simp [List.append_assoc]
        simp only [goURLPath, hany, Bool.false_eq_true, if_false, htake8,
          hdrop8, eq_self_iff_true, if_true, hauth, hav6, hlen6, hdropauth,
          hpath]
        rw [hcomtail]
      · right; right; left
        refine ⟨Or.inl hc, ?_⟩
        have hpath : (c :: (litComSlash ++ urlTail a b d)).takeWhile notQH
            = [] := by
          subst hc
          rw [List.takeWhile_cons]
          simp [show notQH ('?' : Char) = false from by decide]
        simp only [goURLPath, hany, Bool.false_eq_true, if_false, htake8,
          hdrop8, eq_self_iff_true, if_true, hauth, hav6, hlen6, hdropauth,
          hpath]
      · right; right; left
        refine ⟨Or.inr hc, ?_⟩
        have hpath : (c :: (litComSlash ++ urlTail a b d)).takeWhile notQH
            = [] := by
          subst hc
          rw [List.takeWhile_cons]
          simp [show notQH ('#' : Char) = false from by decide]
        simp only [goURLPath, hany, Bool.false_eq_true, if_false, htake8,
          hdrop8, eq_self_iff_true, if_true, hauth, hav6, hlen6, hdropauth,
          hpath]

/-- `strconv.Atoi` rejects a digit string whose value exceeds int64
(ErrRange). -/
theorem goAtoi_digits_overflow (d : List Char) (hd : d.all digitChar = true)
    (hne : d ≠ []) (hval : ¬digitsVal d ≤ 2 ^ 63 - 1) :
    goAtoi d = .error () := by
  cases d with
  | nil => exact absurd rfl hne
  | cons c0 rest =>
    have h0 : digitChar c0 = true := List.all_eq_true.mp hd c0 (by simp)
    have hsupp := digitChar_support c0 h0
    have hm : decide (c0 = '-') = false := by simp [hsupp.2.2.2.2.2.2.1]
    have hp : decide (c0 = '+') = false := by simp [hsupp.2.2.2.2.2.2.2]
    simp only [goAtoi, hm, hp, Bool.or_self, Bool.false_eq_true, if_false,
      List.isEmpty_cons, hd, if_true]
    exact if_neg hval

/-- Inverting a successful `strconv.Atoi` on a digit string. -/
theorem goAtoi_digits_inv (d : List Char) (hd : d.all digitChar = true)
    (hne : d ≠ []) (n : Int) (h : goAtoi d = .ok n) :
    n = (digitsVal d : Int) ∧ digitsVal d ≤ 2 ^ 63 - 1 := by
  by_cases hval : digitsVal d ≤ 2 ^ 63 - 1
  · rw [goAtoi_digits d hd hne hval] at h
    simp only [Except.ok.injEq] at h
    exact ⟨h.symm, hval⟩
  · rw [goAtoi_digits_overflow d hd hne hval] at h
    cases h

/-- Like `goURLPath_shape`, but with the three facts the computation
needs taken as hypotheses, so that it also covers `@` at the dot
position (where `url.Parse` reads `github` as userinfo and `com` as the
host). -/
theorem goURLPath_shape_general (c : Char) (a b d : List Char)
    (hsqh : notSQH c = true) (hcctl : isCTLChar c = false)
    (hav : authorityValid (litGithub ++ c :: litCom) = true)
    (ha : a.all alnumHyphen = true) (hb : b.all alnumHyphen = true)
    (hd : d.all digitChar = true) :
    goURLPath (urlShape c a b d) = .ok ('/' :: urlTail a b d) := by
  have hany := urlShape_ctl_false c a b d hcctl ha hb hd
  have hscheme : urlShape c a b d
      = litHttps ++ (litGithub ++ c :: (litComSlash ++ urlTail a b d)) := by
    unfold urlShape
    rw [show litHttpsGithub = litHttps ++ litGithub from rfl,
      List.append_assoc]
  have h8 : litHttps.length = 8 := rfl
  have htake8 : (urlShape c a b d).take 8 = litHttps := by
    rw [hscheme]; exact List.take_left' h8
  have hdrop8 : (urlShape c a b d).drop 8
      = litGithub ++ c :: (litComSlash ++ urlTail a b d) := by
    rw [hscheme]; exact List.drop_left' h8
  have hauth := auth_takeWhile_go c a b d hsqh
  have hshape2 : litGithub ++ c :: (litComSlash ++ urlTail a b d)
      = (litGithub ++ c :: litCom) ++ '/' :: urlTail a b d := by
    rw [show litComSlash = litCom ++ ['/'] from rfl]
    simp [List.append_assoc]
  have hlen10 : (litGithub ++ c :: litCom).length = 10 := rfl
  have hdropauth :
      (litGithub ++ c :: (litComSlash ++ urlTail a b d)).drop 10
        = '/' :: urlTail a b d := by
    rw [hshape2]; exact List.drop_left' hlen10
  have hpath : ('/' :: urlTail a b d).takeWhile notQH
      = '/' :: urlTail a b d := by
    rw [List.takeWhile_eq_self_iff]
    intro x hx
    rcases List.mem_cons.mp hx with hx | hx
    · subst hx; decide
    · exact urlTail_notQH a b d ha hb hd x hx
  simp only [goURLPath, hany, Bool.false_eq_true, if_false, htake8,
    hdrop8, eq_self_iff_true, if_true, hauth, hlen10, hav, hdropauth,
    hpath]

/-- The authority `github<c>com` validates exactly when `c` is a valid
host character or `@` (userinfo `github`, host `com`); in particular a
validating authority forces that wildcard set. -/
theorem authorityValid_mid_char (c : Char)
    (h : authorityValid (litGithub ++ c :: litCom) = true) :
    goHostChar c = true ∨ c = '@' := by
  by_cases hat : c = '@'
  · exact Or.inr hat
  · left
    have hnoAt : ¬('@' ∈ litGithub ++ c :: litCom) := by
      simp only [List.mem_append, List.mem_cons]
      push_neg
      exact ⟨by decide, fun he => hat he.symm, by decide⟩
    unfold authorityValid at h
    rw [if_neg (by simpa using hnoAt)] at h
    by_cases hcol : c = ':'
    · subst hcol
      rw [show hostValid (litGithub ++ ':' :: litCom) = false from by decide]
        at h
      cases h
    · have hnoCol : ¬(':' ∈ litGithub ++ c :: litCom) := by
        simp only [List.mem_append, List.mem_cons]
        push_neg
        exact ⟨by decide, fun he => hcol he.symm, by decide⟩
      unfold hostValid at h
      rw [if_neg (by simpa using hnoCol)] at h
      exact List.all_eq_true.mp h c (by simp)

/-- Acceptance for every wildcard in the exact accepted set: any valid
host character or `@`. -/
theorem parse_accepts_shape_general (c : Char) (a b d : List Char)
    (hacc : goHostChar c = true ∨ c = '@')
    (ha : a.all alnumHyphen = true) (hb : b.all alnumHyphen = true)
    (hd : d.all digitChar = true) (hdne : d ≠ [])
    (hval : digitsVal d ≤ 2 ^ 63 - 1) :
    parseIssueInfoFromURL ⟨urlShape c a b d⟩
      = .ok ⟨⟨a⟩, ⟨b⟩, (digitsVal d : Int)⟩ := by
  have hsqh : notSQH c = true := by
    rcases hacc with hc | hc
    · exact (goHostChar_support c hc).1
    · subst hc; decide
  have hcctl : isCTLChar c = false := by
    rcases hacc with hc | hc
    · exact (goHostChar_support c hc).2.1
    · subst hc; decide
  have hav : authorityValid (litGithub ++ c :: litCom) = true := by
    rcases hacc with hc | hc
    · have hsupp := goHostChar_support c hc
      unfold authorityValid
      have hnoAt : ¬('@' ∈ litGithub ++ c :: litCom) := by
        simp only [List.mem_append, List.mem_cons]
        push_neg
        exact ⟨by decide, fun he => hsupp.2.2.2.1 he.symm, by decide⟩
      rw [if_neg (by simpa using hnoAt)]
      unfold hostValid
      have hnoCol : ¬(':' ∈ litGithub ++ c :: litCom) := by
        simp only [List.mem_append, List.mem_cons]
        push_neg
        exact ⟨by decide, fun he => hsupp.2.2.2.2.1 he.symm, by decide⟩
      rw [if_neg (by simpa using hnoCol)]
      rw [List.all_eq_true]
      intro x hx
      simp only [List.mem_append, List.mem_cons] at hx
      rcases hx with hx | hx | hx
      · exact (by decide : ∀ x ∈ litGithub, goHostChar x = true) x hx
      · subst hx; exact hc
      · exact (by decide : ∀ x ∈ litCom, goHostChar x = true) x hx
    · subst hc; decide
  have hcn : c ≠ '\n' := by
    intro he
    rw [he] at hsqh hcctl
    exact absurd hcctl (by decide)
  have hmatch := issueURLMatch_shape c a b d hcn ha hb hd hdne
  have hurl := goURLPath_shape_general c a b d hsqh hcctl hav ha hb hd
  have hsplit : splitSlash ('/' :: urlTail a b d)
      = [[], a, b, litIssues, d] := by
    rw [splitSlash_cons_slash, splitSlash_urlTail a b d
      (all_ne_slash_of_alnumHyphen a ha) (all_ne_slash_of_alnumHyphen b hb)
      (all_ne_slash_of_digit d hd)]
  have hatoi := goAtoi_digits d hd hdne hval
  simp only [parseIssueInfoFromURL, hmatch, if_true, hurl, hsplit, hatoi]

/-- Full inversion of the parser: every accepted URL has the matching
shape, `url.Parse` extracted the `/owner/repo/issues/digits` path, and
the returned reference is exactly the owner segment, the repository
segment, and the decimal value of the digits. -/
theorem parse_ok_inversion (s : String) (r : PluginGitHubIssue)
    (h : parseIssueInfoFromURL s = .ok r) :
    ∃ (c : Char) (a b d : List Char),
      s.data = urlShape c a b d ∧
      (goHostChar c = true ∨ c = '@') ∧
      a.all alnumHyphen = true ∧ b.all alnumHyphen = true ∧
      d.all digitChar = true ∧ d ≠ [] ∧ digitsVal d ≤ 2 ^ 63 - 1 ∧
      goURLPath s.data = .ok ('/' :: urlTail a b d) ∧
      r = ⟨⟨a⟩, ⟨b⟩, (digitsVal d : Int)⟩ := by
  unfold parseIssueInfoFromURL at h
  by_cases hm : issueURLMatch s.data = true
  · simp only [hm, if_true] at h
    obtain ⟨c, a, b, d, hcs, hnl, ha, hb, hd, hdne⟩ :=
      issueURLMatch_inv s.data hm
    rw [hcs] at h
    rcases goURLPath_shape_cases c a b d ha hb hd with
      hup | ⟨hc, hup⟩ | ⟨hc, hup⟩ | ⟨hav, hup⟩
    · rw [hup] at h
      cases h
    · rw [hup] at h
      dsimp only [] at h
      have hsp : splitSlash ('/' :: (litCom ++ '/' :: urlTail a b d))
          = [] :: litCom :: [a, b, litIssues, d] := by
        rw [splitSlash_cons_slash, splitSlash_append litCom _ (by decide),
          splitSlash_urlTail a b d (all_ne_slash_of_alnumHyphen a ha)
            (all_ne_slash_of_alnumHyphen b hb) (all_ne_slash_of_digit d hd)]
      rw [hsp] at h
      dsimp only [] at h
      rw [show goAtoi litIssues = Except.error () from rfl] at h
      cases h
    · rw [hup] at h
      dsimp only [] at h
      rw [show splitSlash ([] : List Char) = [[]] from rfl] at h
      cases h
    · rw [hup] at h
      dsimp only [] at h
      have hsp : splitSlash ('/' :: urlTail a b d)
          = [[], a, b, litIssues, d] := by
        rw [splitSlash_cons_slash, splitSlash_urlTail a b d
          (all_ne_slash_of_alnumHyphen a ha)
          (all_ne_slash_of_alnumHyphen b hb) (all_ne_slash_of_digit d hd)]
      rw [hsp] at h
      dsimp only [] at h
      cases hat : goAtoi d with
      | error e =>
        rw [hat] at h
        cases h
      | ok n =>
        rw [hat] at h
        dsimp only [] at h
        simp only [ParseResult.ok.injEq] at h
        obtain ⟨hn, hrange⟩ := goAtoi_digits_inv d hd hdne n hat
        refine ⟨c, a, b, d, hcs, authorityValid_mid_char c hav,
          ha, hb, hd, hdne, hrange, ?_, ?_⟩
        · rw [hcs]; exact hup
        · rw [← h, hn]
  · have hm' : issueURLMatch s.data = false := by
      cases hv : issueURLMatch s.data with
      | true => exact absurd hv hm
      | false => rfl
    simp only [hm', Bool.false_eq_true, if_false] at h
    cases h

/-- C6 counterexample: a URL whose host is `githubXcom` — not
`github.com` — is accepted by the parser, because the dot in the pattern
is an unescaped regex `.`; the claim requires every wrong-host string to
be rejected. -/
theorem C6_counterexample :
    parseIssueInfoFromURL "https://githubXcom/abc/def/issues/7"
      = .ok ⟨"abc", "def", 7⟩ := by decide

/-- C6 (amended): the parser accepts exactly the strings
`https://github<c>com/<owner>/<repo>/issues/<number>` where `<c>` is any
single host-valid character or `@` (the pattern's dot is unescaped, and
`url.Parse` reads `github@com` as userinfo `github` plus host `com`),
owner and repo consist of alphanumeric/hyphen characters, and number is
one or more decimal digits with value at most 2^63 - 1: every such
string is accepted with those segments, every accepted string is of that
shape, and every string failing the regex shape is rejected with the
malformed-input message quoting the expected pattern. -/
theorem C6_parser_accepted_language :
    (∀ (c : Char) (a b d : List Char),
      (goHostChar c = true ∨ c = '@') → a.all alnumHyphen = true →
      b.all alnumHyphen = true → d.all digitChar = true → d ≠ [] →
      digitsVal d ≤ 2 ^ 63 - 1 →
      parseIssueInfoFromURL ⟨urlShape c a b d⟩
        = .ok ⟨⟨a⟩, ⟨b⟩, (digitsVal d : Int)⟩) ∧
    (∀ (s : String) (r : PluginGitHubIssue),
      parseIssueInfoFromURL s = .ok r →
      ∃ (c : Char) (a b d : List Char),
        s.data = urlShape c a b d ∧ (goHostChar c = true ∨ c = '@') ∧
        a.all alnumHyphen = true ∧ b.all alnumHyphen = true ∧
        d.all digitChar = true ∧ d ≠ [] ∧ digitsVal d ≤ 2 ^ 63 - 1 ∧
        r = ⟨⟨a⟩, ⟨b⟩, (digitsVal d : Int)⟩) ∧
    (∀ s : String, issueURLMatch s.data = false →
      parseIssueInfoFromURL s = .err patternErrMsg) ∧
    strContains patternErrMsg issueURLPatternRegExp := by
  refine ⟨fun c a b d hacc ha hb hd hdne hval =>
      parse_accepts_shape_general c a b d hacc ha hb hd hdne hval,
    fun s r h => ?_, fun s hs => ?_, ?_⟩
  · obtain ⟨c, a, b, d, hcs, hacc, ha, hb, hd, hdne, hval, hup, hr⟩ :=
      parse_ok_inversion s r h
    exact ⟨c, a, b, d, hcs, hacc, ha, hb, hd, hdne, hval, hr⟩
  · unfold parseIssueInfoFromURL
    simp only [hs, Bool.false_eq_true, if_false]
  · exact ⟨("invalid issue url, issueURL doesn" ++ apos ++
      "t match pattern: ").data, [], by decide⟩

/-- Witness for the amended C6: acceptance at the real dot and at `@`,
inversion at a concrete accepted URL, and rejection of a concrete
non-matching string. -/
theorem C6_witness :
    (goHostChar ('.' : Char) = true ∨ ('.' : Char) = '@') ∧
    "abc".data.all alnumHyphen = true ∧ "def".data.all alnumHyphen = true ∧
    "12".data.all digitChar = true ∧ "12".data ≠ [] ∧
    digitsVal "12".data ≤ 2 ^ 63 - 1 ∧
    (⟨urlShape '.' "abc".data "def".data "12".data⟩ : String)
      = "https://github.com/abc/def/issues/12" ∧
    parseIssueInfoFromURL ⟨urlShape '.' "abc".data "def".data "12".data⟩
      = .ok ⟨⟨"abc".data⟩, ⟨"def".data⟩, (digitsVal "12".data : Int)⟩ ∧
    (⟨urlShape '@' "abc".data "def".data "7".data⟩ : String)
      = "https://github@com/abc/def/issues/7" ∧
    parseIssueInfoFromURL ⟨urlShape '@' "abc".data "def".data "7".data⟩
      = .ok ⟨⟨"abc".data⟩, ⟨"def".data⟩, (digitsVal "7".data : Int)⟩ ∧
    parseIssueInfoFromURL "https://github.com/oo/rr/issues/5"
      = .ok ⟨"oo", "rr", 5⟩ ∧
    (∃ (c : Char) (a b d : List Char),
      ("https://github.com/oo/rr/issues/5" : String).data
          = urlShape c a b d ∧
        (goHostChar c = true ∨ c = '@') ∧
        a.all alnumHyphen = true ∧ b.all alnumHyphen = true ∧
        d.all digitChar = true ∧ d ≠ [] ∧ digitsVal d ≤ 2 ^ 63 - 1 ∧
        (⟨"oo", "rr", 5⟩ : PluginGitHubIssue)
          = ⟨⟨a⟩, ⟨b⟩, (digitsVal d : Int)⟩) ∧
    issueURLMatch ("not a url" : String).data = false ∧
    parseIssueInfoFromURL "not a url" = .err patternErrMsg := by
  refine ⟨Or.inl (by decide), by decide, by decide, by decide, by decide,
    by decide, by decide, ?_, by decide, ?_, by decide, ?_, by decide, ?_⟩
  · exact C6_parser_accepted_language.1 '.' "abc".data "def".data "12".data
      (Or.inl (by decide)) (by decide) (by decide) (by decide) (by decide)
      (by decide)
  · exact C6_parser_accepted_language.1 '@' "abc".data "def".data "7".data
      (Or.inr rfl) (by decide) (by decide) (by decide) (by decide)
      (by decide)
  · exact C6_parser_accepted_language.2.1 "https://github.com/oo/rr/issues/5"
      ⟨"oo", "rr", 5⟩ (by decide)
  · exact C6_parser_accepted_language.2.2.1 "not a url" (by decide)

/-- C7: every URL the parser accepts decomposes as
`https://github<c>com/<owner>/<repo>/issues/<digits>` with the URL path
extracted by `url.Parse` being `/owner/repo/issues/digits`, and the
returned reference preserves the components exactly: the owner is path
segment 1, the repository is path segment 2, and the issue number is the
decimal value of the trailing digits. -/
theorem C7_parse_fidelity (s : String) (r : PluginGitHubIssue)
    (h : parseIssueInfoFromURL s = .ok r) :
    ∃ (c : Char) (a b d : List Char),
      s.data = urlShape c a b d ∧
      goURLPath s.data = .ok ('/' :: urlTail a b d) ∧
      r.Owner = ⟨a⟩ ∧ r.RepoName = ⟨b⟩ ∧
      r.IssueNumber = (digitsVal d : Int) ∧
      d.all digitChar = true ∧ d ≠ [] := by
  obtain ⟨c, a, b, d, hcs, hacc, ha, hb, hd, hdne, hval, hup, hr⟩ :=
    parse_ok_inversion s r h
  exact ⟨c, a, b, d, hcs, hup, by rw [hr], by rw [hr], by rw [hr], hd, hdne⟩

/-- Witness for C7 at a concrete accepted URL. -/
theorem C7_witness :
    parseIssueInfoFromURL "https://github.com/o/r/issues/1"
        = .ok ⟨"o", "r", 1⟩ ∧
    ∃ (c : Char) (a b d : List Char),
      ("https://github.com/o/r/issues/1" : String).data = urlShape c a b d ∧
      goURLPath ("https://github.com/o/r/issues/1" : String).data
        = .ok ('/' :: urlTail a b d) ∧
      (⟨"o", "r", 1⟩ : PluginGitHubIssue).Owner = ⟨a⟩ ∧
      (⟨"o", "r", 1⟩ : PluginGitHubIssue).RepoName = ⟨b⟩ ∧
      (⟨"o", "r", 1⟩ : PluginGitHubIssue).IssueNumber
        = (digitsVal d : Int) ∧
      d.all digitChar = true ∧ d ≠ [] :=
  ⟨by decide, C7_parse_fidelity "https://github.com/o/r/issues/1"
    ⟨"o", "r", 1⟩ (by decide)⟩

/-- C8 counterexample: the URL `https://github.com///issues/1` is
accepted with empty owner and repository segments, violating the claimed
non-emptiness invariant. -/
theorem C8_counterexample :
    parseIssueInfoFromURL "https://github.com///issues/1"
      = .ok ⟨"", "", 1⟩ ∧ ("" : String).data = [] :=
  ⟨by decide, rfl⟩

/-- C8 (amended): every reference the parser produces has owner and
repository consisting only of alphanumeric/hyphen characters (possibly
empty, since the pattern uses `*`), and its issue number is non-negative,
the decimal value of a pure-digit segment with no extraneous
characters. -/
theorem C8_reference_invariant (s : String) (r : PluginGitHubIssue)
    (h : parseIssueInfoFromURL s = .ok r) :
    r.Owner.data.all alnumHyphen = true ∧
    r.RepoName.data.all alnumHyphen = true ∧
    0 ≤ r.IssueNumber ∧
    ∃ d : List Char, d.all digitChar = true ∧ d ≠ [] ∧
      r.IssueNumber = (digitsVal d : Int) := by
  obtain ⟨c, a, b, d, hcs, hacc, ha, hb, hd, hdne, hval, hup, hr⟩ :=
    parse_ok_inversion s r h
  subst hr
  exact ⟨ha, hb, Int.natCast_nonneg _, ⟨d, hd, hdne, rfl⟩⟩

/-- Witness for the amended C8 at a concrete accepted URL. -/
theorem C8_witness :
    parseIssueInfoFromURL "https://github.com/o/r/issues/1"
        = .ok ⟨"o", "r", 1⟩ ∧
    ((⟨"o", "r", 1⟩ : PluginGitHubIssue).Owner.data.all alnumHyphen = true ∧
     (⟨"o", "r", 1⟩ : PluginGitHubIssue).RepoName.data.all alnumHyphen
        = true ∧
     0 ≤ (⟨"o", "r", 1⟩ : PluginGitHubIssue).IssueNumber ∧
     ∃ d : List Char, d.all digitChar = true ∧ d ≠ [] ∧
       (⟨"o", "r", 1⟩ : PluginGitHubIssue).IssueNumber
         = (digitsVal d : Int)) :=
  ⟨by decide, C8_reference_invariant "https://github.com/o/r/issues/1"
    ⟨"o", "r", 1⟩ (by decide)⟩
